import Mathlib

/-!
Shallow embedding of the test-discovery-and-execution engine of the sweetpad
repository (TypeScript, `TestingManager` and `XcodebuildTestRunContext`).

Strings coming from `xcodebuild` output lines are modelled as `List Char`
(JavaScript strings are sequences of UTF-16 units; all text relevant here is
plain ASCII).  JavaScript regular-expression matching (`String.match` with a
non-anchored pattern, greedy `.*` and `\d+`, leftmost match, backtracking) is
embedded by a small executable matcher specialised to the sequential patterns
used by the source: literals, `(.*)` and `(\d+)`.
-/

namespace Sweetpad

/-- JavaScript `String.prototype.trim`: drop whitespace from both ends. -/
def trimChars (s : List Char) : List Char :=
  ((s.dropWhile Char.isWhitespace).reverse.dropWhile Char.isWhitespace).reverse

/-- JavaScript `String.prototype.split` with a one-character separator. -/
def splitOnChar (sep : Char) : List Char → List (List Char)
  | [] => [[]]
  | c :: cs =>
    match splitOnChar sep cs with
    | [] => [[]]
    | group :: groups =>
      if c = sep then [] :: group :: groups else (c :: group) :: groups

/-- `String.split` lifted to Lean `String`s via their character data. -/
def splitOnStr (sep : Char) (s : String) : List String :=
  (splitOnChar sep s.data).map String.mk

/-- JavaScript `Number.parseInt(s, 10)` restricted to the all-digit strings the
regular expression `(\d+)` captures. -/
def parseDigits (s : List Char) : Nat :=
  s.foldl (fun acc c => acc * 10 + (c.toNat - ('0').toNat)) 0

/-- One element of a JavaScript regular expression of the restricted shape the
source uses: a literal, a greedy `.*` (captured or not), or a greedy captured
`\d+`. -/
inductive RegexItem where
  | lit : List Char → RegexItem
  | dotStar : Bool → RegexItem
  | digits : RegexItem
deriving DecidableEq

/-- The list `[n, n-1, ..., 1, 0]`: the order in which a greedy quantifier
attempts candidate lengths. -/
def downFrom : Nat → List Nat
  | 0 => [0]
  | n + 1 => (n + 1) :: downFrom n

/-- Backtracking matcher for a sequence of `RegexItem`s against a suffix of
the subject, returning the captured groups of the first (leftmost-greedy)
match.  There is no end anchor: trailing subject characters are allowed.
The `fuel` argument makes the recursion structural (so that the kernel can
evaluate the matcher on concrete lines); each recursive call consumes one
item, so any fuel above the item count never runs out. -/
def matchItemsF : Nat → List RegexItem → List Char → Option (List (List Char))
  | 0, _, _ => none
  | _ + 1, [], _ => some []
  | fuel + 1, .lit l :: rest, s =>
    if l.isPrefixOf s then matchItemsF fuel rest (s.drop l.length) else none
  | fuel + 1, .dotStar cap :: rest, s =>
    (downFrom s.length).findSome? fun n =>
      match matchItemsF fuel rest (s.drop n) with
      | some gs => some (if cap then s.take n :: gs else gs)
      | none => none
  | fuel + 1, .digits :: rest, s =>
    (downFrom (s.takeWhile Char.isDigit).length).findSome? fun n =>
      if n = 0 then none
      else
        match matchItemsF fuel rest (s.drop n) with
        | some gs => some (s.take n :: gs)
        | none => none

/-- The matcher with enough fuel for its item list. -/
def matchItems (items : List RegexItem) (s : List Char) :
    Option (List (List Char)) :=
  matchItemsF (items.length + 1) items s

/-- JavaScript `String.match` (non-global, unanchored): try each start
position from the left, first success wins. -/
def matchScan (items : List RegexItem) : List Char → Option (List (List Char))
  | [] => matchItems items []
  | c :: cs =>
    match matchItems items (c :: cs) with
    | some gs => some gs
    | none => matchScan items cs

/-- `INLINE_ERROR_REGEXP = /(.*):(\d+): error: -\[.* (.*)\] : (.*)/`
(inline error lines of the desktop dialect). -/
def INLINE_ERROR_REGEXP : List RegexItem :=
  [.dotStar true, .lit ":".data, .digits, .lit ": error: -[".data,
   .dotStar false, .lit " ".data, .dotStar true, .lit "] : ".data, .dotStar true]

/-- `METHOD_STATUS_REGEXP_MACOS = /Test Case '-\[(.*) (.*)\]' (.*)/`
(desktop-dialect test status lines). -/
def METHOD_STATUS_REGEXP_MACOS : List RegexItem :=
  [.lit "Test Case '-[".data, .dotStar true, .lit " ".data, .dotStar true,
   .lit "]' ".data, .dotStar true]

/-- `METHOD_STATUS_REGEXP_IOS = /Test case '(.*)\.(.*)\(\)' (.*)/`
(mobile-dialect test status lines). -/
def METHOD_STATUS_REGEXP_IOS : List RegexItem :=
  [.lit "Test case '".data, .dotStar true, .lit ".".data, .dotStar true,
   .lit "()' ".data, .dotStar true]

/-- `line.match(METHOD_STATUS_REGEXP_IOS)` destructured as
`(qualifiedClass, methodName, status)`. -/
def matchMethodStatusIOS (line : List Char) :
    Option (List Char × List Char × List Char) :=
  match matchScan METHOD_STATUS_REGEXP_IOS line with
  | some [g1, g2, g3] => some (g1, g2, g3)
  | _ => none

/-- `line.match(METHOD_STATUS_REGEXP_MACOS)` destructured as
`(targetAndClass, methodName, status)`. -/
def matchMethodStatusMacOS (line : List Char) :
    Option (List Char × List Char × List Char) :=
  match matchScan METHOD_STATUS_REGEXP_MACOS line with
  | some [g1, g2, g3] => some (g1, g2, g3)
  | _ => none

/-- `line.match(INLINE_ERROR_REGEXP)` destructured as
`(filePath, lineNumber, methodName, errorMessage)`. -/
def matchInlineError (line : List Char) :
    Option (List Char × List Char × List Char × List Char) :=
  match matchScan INLINE_ERROR_REGEXP line with
  | some [g1, g2, g3, g4] => some (g1, g2, g3, g4)
  | _ => none

/-- `TestingInlineError` of the source: file, 1-based line, message. -/
structure TestingInlineError where
  fileName : String
  lineNumber : Int
  message : String
deriving DecidableEq

/-- A `vscode.TestMessage` as the source builds it: the message text and the
optional error location (file path and 0-based line of the `vscode.Position`). -/
structure TestMessage where
  message : String
  location : Option (String × Int)
deriving DecidableEq

/-- One call the source makes on the `vscode.TestRun` object for a test item:
`run.started`, `run.passed`, `run.failed` or `run.skipped`. -/
inductive RunEvent where
  | started : String → RunEvent
  | passed : String → RunEvent
  | failed : String → TestMessage → RunEvent
  | skipped : String → RunEvent
deriving DecidableEq

/-- `XcodebuildTestRunContext`: the per-run aggregation state.  `methodTests`
is the key list of the `Map` fixed at construction (insertion order matters:
`findTestIdByMethodName` scans it in order); the two JavaScript `Set`s are
modelled as `Finset`s (only membership and size are consumed); the inline
error `Map` as a lookup function. -/
structure XcodebuildTestRunContext where
  methodTests : List String
  processedMethodTests : Finset String
  failedMethodTests : Finset String
  inlineErrorMap : String → Option TestingInlineError

/-- The constructor `new XcodebuildTestRunContext({methodTests})`: both sets
start empty, the error map empty. -/
def mkRunContext (methodTests : List String) : XcodebuildTestRunContext :=
  { methodTests := methodTests
    processedMethodTests := ∅
    failedMethodTests := ∅
    inlineErrorMap := fun _ => none }

/-- `getTestIds().find(id => id.endsWith("." + methodName))`. -/
def findTestIdByMethodName (ctx : XcodebuildTestRunContext)
    (methodName : List Char) : Option String :=
  ctx.methodTests.find? fun id => ('.' :: methodName).isSuffixOf id.data

/-- `getOverallStatus()`. -/
def getOverallStatus (ctx : XcodebuildTestRunContext) : String :=
  if 0 < ctx.failedMethodTests.card then "failed"
  else if ctx.processedMethodTests.card = ctx.methodTests.length then "passed"
  else "skipped"

/-- `getMethodError`: the stored inline error if any (with a 0-based
position `lineNumber - 1`), otherwise the generic message. -/
def getMethodError (ctx : XcodebuildTestRunContext) (methodTestId : String) :
    TestMessage :=
  match ctx.inlineErrorMap methodTestId with
  | some error =>
    { message := error.message
      location := some (error.fileName, error.lineNumber - 1) }
  | none =>
    { message := "Test failed (error message is not extracted)."
      location := none }

/-- The status-line handling of `parseOutputLine`.  The source repeats this
block verbatim for the mobile and the desktop dialect; it is factored here
once.  Returns the updated context and the `vscode.TestRun` calls made. -/
def handleMethodStatus (ctx : XcodebuildTestRunContext)
    (methodName status : List Char) :
    XcodebuildTestRunContext × List RunEvent :=
  match findTestIdByMethodName ctx methodName with
  | none => (ctx, [])
  | some methodTestId =>
    if ctx.methodTests.contains methodTestId then
      if "started".data.isPrefixOf status then
        (ctx, [.started methodTestId])
      else if "passed".data.isPrefixOf status then
        ({ ctx with
            processedMethodTests := insert methodTestId ctx.processedMethodTests },
         [.passed methodTestId])
      else if "failed".data.isPrefixOf status then
        ({ ctx with
            processedMethodTests := insert methodTestId ctx.processedMethodTests
            failedMethodTests := insert methodTestId ctx.failedMethodTests },
         [.failed methodTestId (getMethodError ctx methodTestId)])
      else (ctx, [])
    else (ctx, [])

/-- `parseOutputLine`: trim the line, try the mobile status pattern, then the
desktop status pattern, then the inline-error pattern; unmatched lines are
ignored. -/
def parseOutputLine (ctx : XcodebuildTestRunContext) (rawLine : String) :
    XcodebuildTestRunContext × List RunEvent :=
  let line := trimChars rawLine.data
  match matchMethodStatusIOS line with
  | some (_, methodName, status) => handleMethodStatus ctx methodName status
  | none =>
    match matchMethodStatusMacOS line with
    | some (_, methodName, status) => handleMethodStatus ctx methodName status
    | none =>
      match matchInlineError line with
      | some (filePath, lineNumber, methodName, errorMessage) =>
        match findTestIdByMethodName ctx methodName with
        | none => (ctx, [])
        | some testId =>
          ({ ctx with
              inlineErrorMap := fun id =>
                if id = testId then
                  some { fileName := String.mk filePath
                         lineNumber := (parseDigits lineNumber : Int)
                         message := String.mk errorMessage }
                else ctx.inlineErrorMap id },
           [])
      | none => (ctx, [])

/-- Feeding a sequence of output lines to `parseOutputLine`, in order,
collecting the `vscode.TestRun` calls. -/
def consumeLines (ctx : XcodebuildTestRunContext) :
    List String → XcodebuildTestRunContext × List RunEvent
  | [] => (ctx, [])
  | l :: ls =>
    let step := parseOutputLine ctx l
    let rest := consumeLines step.1 ls
    (rest.1, step.2 ++ rest.2)

/-- `getTestTarget`: split the id on `:`; if there are at least two segments,
the first (`domain`) and second (`testType`) are truthy, and the second ends
with `"Tests"`, the target is their concatenation. -/
def getTestTarget (testId : String) : Option String :=
  match splitOnStr ':' testId with
  | domain :: testType :: _ =>
    if domain ≠ "" ∧ testType ≠ "" ∧ "Tests".data.isSuffixOf testType.data then
      some (domain ++ testType)
    else none
  | _ => none

/-- `isValidTestItem`: at least two `:` segments and the second ends with
`"Tests"`. -/
def isValidTestItem (testId : String) : Bool :=
  match splitOnStr ':' testId with
  | _ :: second :: _ => "Tests".data.isSuffixOf second.data
  | _ => false

/-- `runMethodTest`, reduced to its observable `vscode.TestRun` calls.  The
external `xcodebuild` invocation is abstracted by the output lines it produced
and, when it threw, the error message used by the `catch` block (`some errMsg`
for `error.message` / `"Test failed"`).  The id parsing, argument building and
task plumbing do not touch the run state and are omitted. -/
def runMethodTest (methodTestId : String) (outputLines : List String)
    (execError : Option String) : List RunEvent :=
  match getTestTarget methodTestId with
  | none => [.skipped methodTestId]
  | some _ =>
    let afterRun := consumeLines (mkRunContext [methodTestId]) outputLines
    [.started methodTestId] ++ afterRun.2
      ++ (match execError with
          | some errMsg => [.failed methodTestId { message := errMsg, location := none }]
          | none => [])
      ++ (if methodTestId ∈ afterRun.1.processedMethodTests then []
          else [.skipped methodTestId])

/-- Whether an event is a terminal (passed/failed/skipped) mark for `id`. -/
def isTerminalMarkFor (id : String) : RunEvent → Bool
  | .passed i => i == id
  | .failed i _ => i == id
  | .skipped i => i == id
  | .started _ => false

/-- The last terminal mark a `vscode.TestRun` receives for `id`: the state the
test item ends the run in. -/
def finalMark (id : String) (events : List RunEvent) : Option RunEvent :=
  (events.filter (isTerminalMarkFor id)).getLast?

/-- `prepareQueueForRun`: take the explicit selection (or all root items),
then drop every entry whose id splits on `.` into a class part and a truthy
method part when the class part itself is in the queue. -/
def prepareQueueForRun (includeItems : Option (List String))
    (rootItems : List String) : List String :=
  let queue : List String :=
    match includeItems with
    | some tests => tests
    | none => rootItems
  queue.filter fun test =>
    match splitOnStr '.' test with
    | className :: methodName :: _ =>
      if methodName = "" then true
      else !(queue.any fun t => t == className)
    | _ => true

/-! ### Per-line contributions to the run sets

The updates `parseOutputLine` makes to `processedMethodTests` and
`failedMethodTests` depend only on the line and on the fixed key list, never
on the current contents of the two sets; the two functions below express that
contribution so that order-independence can be stated. -/

/-- The `(processed, failed)` ids a status line with the given correlated
method name and status contributes. -/
def statusLineTargets (keys : List String) (methodName status : List Char) :
    Finset String × Finset String :=
  match keys.find? (fun id => ('.' :: methodName).isSuffixOf id.data) with
  | none => (∅, ∅)
  | some id =>
    if keys.contains id then
      if "started".data.isPrefixOf status then (∅, ∅)
      else if "passed".data.isPrefixOf status then ({id}, ∅)
      else if "failed".data.isPrefixOf status then ({id}, {id})
      else (∅, ∅)
    else (∅, ∅)

/-- The `(processed, failed)` ids one raw output line contributes. -/
def lineTargets (keys : List String) (rawLine : String) :
    Finset String × Finset String :=
  let line := trimChars rawLine.data
  match matchMethodStatusIOS line with
  | some (_, methodName, status) => statusLineTargets keys methodName status
  | none =>
    match matchMethodStatusMacOS line with
    | some (_, methodName, status) => statusLineTargets keys methodName status
    | none => (∅, ∅)

theorem handleMethodStatus_methodTests (ctx : XcodebuildTestRunContext)
    (m st : List Char) :
    (handleMethodStatus ctx m st).1.methodTests = ctx.methodTests := by
  unfold handleMethodStatus
  cases h : findTestIdByMethodName ctx m <;> simp
  split <;> [skip; rfl]
  split <;> [rfl; skip]
  split <;> [rfl; skip]
  split <;> rfl

theorem parseOutputLine_methodTests (ctx : XcodebuildTestRunContext)
    (l : String) :
    (parseOutputLine ctx l).1.methodTests = ctx.methodTests := by
  unfold parseOutputLine
  dsimp only
  split
  · exact handleMethodStatus_methodTests ..
  split
  · exact handleMethodStatus_methodTests ..
  split
  · split <;> rfl
  · rfl

theorem handleMethodStatus_processed (ctx : XcodebuildTestRunContext)
    (m st : List Char) :
    (handleMethodStatus ctx m st).1.processedMethodTests =
      ctx.processedMethodTests ∪ (statusLineTargets ctx.methodTests m st).1 := by
  unfold handleMethodStatus statusLineTargets findTestIdByMethodName
  cases h : ctx.methodTests.find? (fun id => ('.' :: m).isSuffixOf id.data) with
  | none => simp
  | some id =>
    simp only
    split
    · split
      · simp
      · split
        · simp [Finset.union_comm, Finset.insert_eq]
        · split
          · simp [Finset.union_comm, Finset.insert_eq]
          · simp
    · simp

theorem handleMethodStatus_failed (ctx : XcodebuildTestRunContext)
    (m st : List Char) :
    (handleMethodStatus ctx m st).1.failedMethodTests =
      ctx.failedMethodTests ∪ (statusLineTargets ctx.methodTests m st).2 := by
  unfold handleMethodStatus statusLineTargets findTestIdByMethodName
  cases h : ctx.methodTests.find? (fun id => ('.' :: m).isSuffixOf id.data) with
  | none => simp
  | some id =>
    simp only
    split
    · split
      · simp
      · split
        · simp
        · split
          · simp [Finset.union_comm, Finset.insert_eq]
          · simp
    · simp

theorem parseOutputLine_processed (ctx : XcodebuildTestRunContext)
    (l : String) :
    (parseOutputLine ctx l).1.processedMethodTests =
      ctx.processedMethodTests ∪ (lineTargets ctx.methodTests l).1 := by
  unfold parseOutputLine lineTargets
  dsimp only
  split
  · exact handleMethodStatus_processed ..
  split
  · exact handleMethodStatus_processed ..
  split
  · split <;> simp
  · simp

theorem parseOutputLine_failed (ctx : XcodebuildTestRunContext)
    (l : String) :
    (parseOutputLine ctx l).1.failedMethodTests =
      ctx.failedMethodTests ∪ (lineTargets ctx.methodTests l).2 := by
  unfold parseOutputLine lineTargets
  dsimp only
  split
  · exact handleMethodStatus_failed ..
  split
  · exact handleMethodStatus_failed ..
  split
  · split <;> simp
  · simp

theorem statusLineTargets_failed_subset (keys : List String)
    (m st : List Char) :
    (statusLineTargets keys m st).2 ⊆ (statusLineTargets keys m st).1 := by
  unfold statusLineTargets
  cases h : keys.find? (fun id => ('.' :: m).isSuffixOf id.data) with
  | none => simp
  | some id =>
    simp only
    split
    · split
      · simp
      · split
        · simp
        · split <;> simp
    · simp

theorem statusLineTargets_processed_mem (keys : List String)
    (m st : List Char) (x : String)
    (hx : x ∈ (statusLineTargets keys m st).1) : x ∈ keys := by
  unfold statusLineTargets at hx
  cases h : keys.find? (fun id => ('.' :: m).isSuffixOf id.data) with
  | none => rw [h] at hx; simp at hx
  | some id =>
    rw [h] at hx
    have hid : id ∈ keys := List.mem_of_find?_eq_some h
    simp only at hx
    split at hx
    · split at hx
      · simp at hx
      · split at hx
        · simp at hx; exact hx ▸ hid
        · split at hx
          · simp at hx; exact hx ▸ hid
          · simp at hx
    · simp at hx

theorem lineTargets_failed_subset (keys : List String) (l : String) :
    (lineTargets keys l).2 ⊆ (lineTargets keys l).1 := by
  unfold lineTargets
  dsimp only
  split
  · exact statusLineTargets_failed_subset ..
  split
  · exact statusLineTargets_failed_subset ..
  · simp

theorem lineTargets_processed_mem (keys : List String) (l : String)
    (x : String) (hx : x ∈ (lineTargets keys l).1) : x ∈ keys := by
  unfold lineTargets at hx
  dsimp only at hx
  split at hx
  · exact statusLineTargets_processed_mem _ _ _ _ hx
  split at hx
  · exact statusLineTargets_processed_mem _ _ _ _ hx
  · simp at hx

theorem consumeLines_methodTests (ls : List String) :
    ∀ ctx : XcodebuildTestRunContext,
      (consumeLines ctx ls).1.methodTests = ctx.methodTests := by
  induction ls with
  | nil => intro ctx; rfl
  | cons l ls ih =>
    intro ctx
    show (consumeLines (parseOutputLine ctx l).1 ls).1.methodTests = _
    rw [ih, parseOutputLine_methodTests]

theorem mem_processed_consumeLines (ls : List String) :
    ∀ (ctx : XcodebuildTestRunContext) (x : String),
      x ∈ (consumeLines ctx ls).1.processedMethodTests ↔
        x ∈ ctx.processedMethodTests ∨
          ∃ l ∈ ls, x ∈ (lineTargets ctx.methodTests l).1 := by
  induction ls with
  | nil => intro ctx x; simp [consumeLines]
  | cons l ls ih =>
    intro ctx x
    show x ∈ (consumeLines (parseOutputLine ctx l).1 ls).1.processedMethodTests ↔ _
    rw [ih, parseOutputLine_processed, parseOutputLine_methodTests]
    simp only [Finset.mem_union, List.mem_cons]
    constructor
    · rintro ((h | h) | ⟨a, ha, hx⟩)
      · exact Or.inl h
      · exact Or.inr ⟨l, Or.inl rfl, h⟩
      · exact Or.inr ⟨a, Or.inr ha, hx⟩
    · rintro (h | ⟨a, (rfl | ha), hx⟩)
      · exact Or.inl (Or.inl h)
      · exact Or.inl (Or.inr hx)
      · exact Or.inr ⟨a, ha, hx⟩

theorem mem_failed_consumeLines (ls : List String) :
    ∀ (ctx : XcodebuildTestRunContext) (x : String),
      x ∈ (consumeLines ctx ls).1.failedMethodTests ↔
        x ∈ ctx.failedMethodTests ∨
          ∃ l ∈ ls, x ∈ (lineTargets ctx.methodTests l).2 := by
  induction ls with
  | nil => intro ctx x; simp [consumeLines]
  | cons l ls ih =>
    intro ctx x
    show x ∈ (consumeLines (parseOutputLine ctx l).1 ls).1.failedMethodTests ↔ _
    rw [ih, parseOutputLine_failed, parseOutputLine_methodTests]
    simp only [Finset.mem_union, List.mem_cons]
    constructor
    · rintro ((h | h) | ⟨a, ha, hx⟩)
      · exact Or.inl h
      · exact Or.inr ⟨l, Or.inl rfl, h⟩
      · exact Or.inr ⟨a, Or.inr ha, hx⟩
    · rintro (h | ⟨a, (rfl | ha), hx⟩)
      · exact Or.inl (Or.inl h)
      · exact Or.inl (Or.inr hx)
      · exact Or.inr ⟨a, ha, hx⟩

/-! ### Run-context invariants -/

theorem consume_failed_subset_processed (ids lines : List String) :
    (consumeLines (mkRunContext ids) lines).1.failedMethodTests ⊆
      (consumeLines (mkRunContext ids) lines).1.processedMethodTests := by
  intro x hx
  rw [mem_failed_consumeLines] at hx
  rw [mem_processed_consumeLines]
  rcases hx with h | ⟨l, hl, hx⟩
  · exact absurd h (by simp [mkRunContext])
  · exact Or.inr ⟨l, hl, lineTargets_failed_subset _ _ hx⟩

theorem consume_processed_mem_keys (ids lines : List String) (x : String)
    (hx : x ∈ (consumeLines (mkRunContext ids) lines).1.processedMethodTests) :
    x ∈ ids := by
  rw [mem_processed_consumeLines] at hx
  rcases hx with h | ⟨l, hl, hx⟩
  · exact absurd h (by simp [mkRunContext])
  · exact lineTargets_processed_mem _ _ _ hx

/-- C1: for every run context and every sequence of output lines fed to
`parseOutputLine`, the failed set is a subset of the processed set, which is a
subset of the key set of `methodTests`, and that key set is the one fixed at
context creation. -/
theorem runContext_failed_subset_processed_subset_keys
    (ids lines : List String) :
    (consumeLines (mkRunContext ids) lines).1.failedMethodTests ⊆
        (consumeLines (mkRunContext ids) lines).1.processedMethodTests ∧
      (∀ x ∈ (consumeLines (mkRunContext ids) lines).1.processedMethodTests,
        x ∈ ids) ∧
      (consumeLines (mkRunContext ids) lines).1.methodTests = ids :=
  ⟨consume_failed_subset_processed ids lines,
   consume_processed_mem_keys ids lines,
   consumeLines_methodTests lines (mkRunContext ids)⟩

/-- C2: after any sequence of lines the overall status is `"failed"` when the
failed set is non-empty, else `"passed"` when the processed set equals the full
key set, else `"skipped"`; and the status does not depend on the order of the
lines. -/
theorem getOverallStatus_rule_and_order_independent
    (ids : List String) (hnodup : ids.Nodup)
    (lines lines' : List String) (hperm : lines.Perm lines') :
    (getOverallStatus (consumeLines (mkRunContext ids) lines).1 =
      if (consumeLines (mkRunContext ids) lines).1.failedMethodTests ≠ ∅ then
        "failed"
      else if (consumeLines (mkRunContext ids) lines).1.processedMethodTests =
          ids.toFinset then "passed"
      else "skipped") ∧
    getOverallStatus (consumeLines (mkRunContext ids) lines').1 =
      getOverallStatus (consumeLines (mkRunContext ids) lines).1 := by
  have hmt : (consumeLines (mkRunContext ids) lines).1.methodTests = ids :=
    consumeLines_methodTests lines (mkRunContext ids)
  have hmt' : (consumeLines (mkRunContext ids) lines').1.methodTests = ids :=
    consumeLines_methodTests lines' (mkRunContext ids)
  have hcard : ∀ c : XcodebuildTestRunContext,
      c.methodTests = ids →
      (∀ x ∈ c.processedMethodTests, x ∈ ids) →
      ((c.processedMethodTests.card = c.methodTests.length) ↔
        c.processedMethodTests = ids.toFinset) := by
    intro c hc hsub
    rw [hc]
    have hsub' : c.processedMethodTests ⊆ ids.toFinset := fun x hx =>
      List.mem_toFinset.mpr (hsub x hx)
    constructor
    · intro h
      exact Finset.eq_of_subset_of_card_le hsub'
        (le_of_eq (by rw [List.toFinset_card_of_nodup hnodup, ← h]))
    · intro h
      rw [h, List.toFinset_card_of_nodup hnodup]
  constructor
  · unfold getOverallStatus
    rw [if_congr (by rw [Finset.card_pos, Finset.nonempty_iff_ne_empty]) rfl
      (if_congr (hcard _ hmt (consume_processed_mem_keys ids lines)) rfl rfl)]
  · have hpf : (consumeLines (mkRunContext ids) lines').1.processedMethodTests =
        (consumeLines (mkRunContext ids) lines).1.processedMethodTests := by
      ext x
      rw [mem_processed_consumeLines, mem_processed_consumeLines]
      exact or_congr Iff.rfl
        (exists_congr fun l => and_congr_left fun _ => (hperm.mem_iff).symm)
    have hff : (consumeLines (mkRunContext ids) lines').1.failedMethodTests =
        (consumeLines (mkRunContext ids) lines).1.failedMethodTests := by
      ext x
      rw [mem_failed_consumeLines, mem_failed_consumeLines]
      exact or_congr Iff.rfl
        (exists_congr fun l => and_congr_left fun _ => (hperm.mem_iff).symm)
    unfold getOverallStatus
    rw [hpf, hff, hmt, hmt']

/-- C2 witness: the theorem applied to a concrete two-test context whose two
status lines arrive in either order. -/
theorem getOverallStatus_rule_witness :
    (getOverallStatus
        (consumeLines (mkRunContext ["FooTests.testBar", "FooTests.testBaz"])
          ["Test case 'FooTests.testBar()' passed",
           "Test case 'FooTests.testBaz()' failed"]).1 =
      if (consumeLines (mkRunContext ["FooTests.testBar", "FooTests.testBaz"])
            ["Test case 'FooTests.testBar()' passed",
             "Test case 'FooTests.testBaz()' failed"]).1.failedMethodTests ≠ ∅
        then "failed"
      else if (consumeLines (mkRunContext ["FooTests.testBar", "FooTests.testBaz"])
            ["Test case 'FooTests.testBar()' passed",
             "Test case 'FooTests.testBaz()' failed"]).1.processedMethodTests =
          ["FooTests.testBar", "FooTests.testBaz"].toFinset then "passed"
      else "skipped") ∧
    getOverallStatus
        (consumeLines (mkRunContext ["FooTests.testBar", "FooTests.testBaz"])
          ["Test case 'FooTests.testBaz()' failed",
           "Test case 'FooTests.testBar()' passed"]).1 =
      getOverallStatus
        (consumeLines (mkRunContext ["FooTests.testBar", "FooTests.testBaz"])
          ["Test case 'FooTests.testBar()' passed",
           "Test case 'FooTests.testBaz()' failed"]).1 :=
  getOverallStatus_rule_and_order_independent
    ["FooTests.testBar", "FooTests.testBaz"] (by decide)
    ["Test case 'FooTests.testBar()' passed",
     "Test case 'FooTests.testBaz()' failed"]
    ["Test case 'FooTests.testBaz()' failed",
     "Test case 'FooTests.testBar()' passed"]
    (List.Perm.swap _ _ _)

/-! ### Branch equations for `parseOutputLine` -/

theorem isPrefixOf_false_of_conflict (a b st : List Char)
    (hab : ¬(a <+: b)) (hba : ¬(b <+: a)) (h : b.isPrefixOf st = true) :
    a.isPrefixOf st = false := by
  rw [List.isPrefixOf_iff_prefix] at h
  cases ha : a.isPrefixOf st with
  | false => rfl
  | true =>
    rw [List.isPrefixOf_iff_prefix] at ha
    rcases List.prefix_or_prefix_of_prefix ha h with h1 | h1
    · exact absurd h1 hab
    · exact absurd h1 hba

theorem findTestIdByMethodName_congr (ctx ctx' : XcodebuildTestRunContext)
    (h : ctx'.methodTests = ctx.methodTests) (m : List Char) :
    findTestIdByMethodName ctx' m = findTestIdByMethodName ctx m := by
  unfold findTestIdByMethodName
  rw [h]

theorem handleMethodStatus_failed_eq (ctx : XcodebuildTestRunContext)
    (m st : List Char) (id : String)
    (hfind : findTestIdByMethodName ctx m = some id)
    (hst : "failed".data.isPrefixOf st = true) :
    handleMethodStatus ctx m st =
      ({ ctx with
          processedMethodTests := insert id ctx.processedMethodTests
          failedMethodTests := insert id ctx.failedMethodTests },
       [.failed id (getMethodError ctx id)]) := by
  have hmem : id ∈ ctx.methodTests :=
    List.mem_of_find?_eq_some hfind
  have hcont : ctx.methodTests.contains id = true := by
    simpa using hmem
  have h1 : "started".data.isPrefixOf st = false :=
    isPrefixOf_false_of_conflict _ _ st (by decide) (by decide) hst
  have h2 : "passed".data.isPrefixOf st = false :=
    isPrefixOf_false_of_conflict _ _ st (by decide) (by decide) hst
  unfold handleMethodStatus
  rw [hfind]
  simp [hcont, h1, h2, hst, hmem]

theorem handleMethodStatus_passed_eq (ctx : XcodebuildTestRunContext)
    (m st : List Char) (id : String)
    (hfind : findTestIdByMethodName ctx m = some id)
    (hst : "passed".data.isPrefixOf st = true) :
    handleMethodStatus ctx m st =
      ({ ctx with
          processedMethodTests := insert id ctx.processedMethodTests },
       [.passed id]) := by
  have hmem : id ∈ ctx.methodTests :=
    List.mem_of_find?_eq_some hfind
  have hcont : ctx.methodTests.contains id = true := by
    simpa using hmem
  have h1 : "started".data.isPrefixOf st = false :=
    isPrefixOf_false_of_conflict _ _ st (by decide) (by decide) hst
  unfold handleMethodStatus
  rw [hfind]
  simp [hcont, h1, hst, hmem]

theorem parseOutputLine_ios_eq (ctx : XcodebuildTestRunContext) (l : String)
    (a m st : List Char)
    (hios : matchMethodStatusIOS (trimChars l.data) = some (a, m, st)) :
    parseOutputLine ctx l = handleMethodStatus ctx m st := by
  unfold parseOutputLine
  dsimp only
  rw [hios]

theorem parseOutputLine_macos_eq (ctx : XcodebuildTestRunContext) (l : String)
    (a m st : List Char)
    (hios : matchMethodStatusIOS (trimChars l.data) = none)
    (hmac : matchMethodStatusMacOS (trimChars l.data) = some (a, m, st)) :
    parseOutputLine ctx l = handleMethodStatus ctx m st := by
  unfold parseOutputLine
  dsimp only
  rw [hios, hmac]

theorem parseOutputLine_inline_eq (ctx : XcodebuildTestRunContext) (l : String)
    (fp num m msg : List Char) (id : String)
    (hios : matchMethodStatusIOS (trimChars l.data) = none)
    (hmac : matchMethodStatusMacOS (trimChars l.data) = none)
    (hinl : matchInlineError (trimChars l.data) = some (fp, num, m, msg))
    (hfind : findTestIdByMethodName ctx m = some id) :
    parseOutputLine ctx l =
      ({ ctx with
          inlineErrorMap := fun i =>
            if i = id then
              some { fileName := String.mk fp
                     lineNumber := (parseDigits num : Int)
                     message := String.mk msg }
            else ctx.inlineErrorMap i },
       []) := by
  unfold parseOutputLine
  dsimp only
  rw [hios, hmac, hinl]
  dsimp only
  rw [hfind]

theorem consumeLines_pair (ctx : XcodebuildTestRunContext) (l1 l2 : String) :
    consumeLines ctx [l1, l2] =
      ((parseOutputLine (parseOutputLine ctx l1).1 l2).1,
       (parseOutputLine ctx l1).2 ++
         (parseOutputLine (parseOutputLine ctx l1).1 l2).2) := by
  simp [consumeLines]

/-- C3 counterexample: with two known leaf ids both ending in `.testFoo`, a
failed status line naming the bare method `testFoo` is not ignored — the
first key in insertion order is marked processed and failed. -/
theorem ambiguous_line_counterexample :
    ((mkRunContext ["A.testFoo", "B.testFoo"]).methodTests.filter
        (fun id => ('.' :: "testFoo".data).isSuffixOf id.data)).length = 2 ∧
    (parseOutputLine (mkRunContext ["A.testFoo", "B.testFoo"])
        "Test case 'F.testFoo()' failed").1.processedMethodTests =
      {"A.testFoo"} ∧
    (parseOutputLine (mkRunContext ["A.testFoo", "B.testFoo"])
        "Test case 'F.testFoo()' failed").1.failedMethodTests =
      {"A.testFoo"} := by
  refine ⟨by decide, ?_, ?_⟩ <;> rfl

/-- C3 amended: when a status line reports a bare method name matching two or
more known leaf ids, the line is not ignored; `findTestIdByMethodName` picks
the first matching key in insertion order and a failed status marks exactly
that id processed and failed. -/
theorem ambiguous_line_resolves_to_first_match
    (ctx : XcodebuildTestRunContext) (l : String) (a m st : List Char)
    (hios : matchMethodStatusIOS (trimChars l.data) = some (a, m, st))
    (hst : "failed".data.isPrefixOf st = true)
    (hamb : 2 ≤ (ctx.methodTests.filter
        (fun id => ('.' :: m).isSuffixOf id.data)).length) :
    ∃ id, findTestIdByMethodName ctx m = some id ∧
      (parseOutputLine ctx l).1.processedMethodTests =
        insert id ctx.processedMethodTests ∧
      (parseOutputLine ctx l).1.failedMethodTests =
        insert id ctx.failedMethodTests := by
  have hex : ∃ x, x ∈ ctx.methodTests ∧
      (('.' :: m).isSuffixOf x.data : Bool) = true := by
    have hlen : 0 < (ctx.methodTests.filter
        (fun id => ('.' :: m).isSuffixOf id.data)).length :=
      lt_of_lt_of_le (by norm_num) hamb
    obtain ⟨x, hx⟩ := List.exists_mem_of_length_pos hlen
    exact ⟨x, (List.mem_filter.mp hx).1, (List.mem_filter.mp hx).2⟩
  have hsome : (findTestIdByMethodName ctx m).isSome := by
    unfold findTestIdByMethodName
    rw [List.find?_isSome]
    exact ⟨hex.choose, hex.choose_spec.1, hex.choose_spec.2⟩
  obtain ⟨id, hid⟩ := Option.isSome_iff_exists.mp hsome
  refine ⟨id, hid, ?_, ?_⟩ <;>
    rw [parseOutputLine_ios_eq ctx l a m st hios,
      handleMethodStatus_failed_eq ctx m st id hid hst]

/-- C3 witness: the amended theorem applied to the concrete ambiguous
context. -/
theorem ambiguous_line_witness :
    ∃ id, findTestIdByMethodName (mkRunContext ["A.testFoo", "B.testFoo"])
        "testFoo".data = some id ∧
      (parseOutputLine (mkRunContext ["A.testFoo", "B.testFoo"])
          "Test case 'F.testFoo()' failed").1.processedMethodTests =
        insert id (mkRunContext ["A.testFoo", "B.testFoo"]).processedMethodTests ∧
      (parseOutputLine (mkRunContext ["A.testFoo", "B.testFoo"])
          "Test case 'F.testFoo()' failed").1.failedMethodTests =
        insert id (mkRunContext ["A.testFoo", "B.testFoo"]).failedMethodTests :=
  ambiguous_line_resolves_to_first_match
    (mkRunContext ["A.testFoo", "B.testFoo"])
    "Test case 'F.testFoo()' failed"
    "F".data "testFoo".data "failed".data
    (by decide) (by decide) (by decide)

/-- C4 counterexample: a single-method context whose method is reported
failed and then passed.  The last per-test mark is `passed`, yet the method
stays in the failed set, so the overall status is still `"failed"` — not
`"passed"` as the claim requires. -/
theorem rerun_pass_counterexample :
    (consumeLines (mkRunContext ["F.testBar"])
        ["Test case 'F.testBar()' failed", "Test case 'F.testBar()' passed"]).2 =
      [.failed "F.testBar"
        { message := "Test failed (error message is not extracted)."
          location := none },
       .passed "F.testBar"] ∧
    getOverallStatus (consumeLines (mkRunContext ["F.testBar"])
        ["Test case 'F.testBar()' failed", "Test case 'F.testBar()' passed"]).1 =
      "failed" := by
  constructor
  · rfl
  · decide

/-- C4 amended: when a method is reported failed and later passed in the same
run context, the passed report is the last per-test mark and the id is (still)
in the processed set, and the invariant `failed ⊆ processed` is preserved;
but the id is never removed from the failed set, so the overall status remains
`"failed"`. -/
theorem rerun_pass_keeps_failed_set
    (ctx : XcodebuildTestRunContext) (l1 l2 : String)
    (a1 m1 st1 a2 m2 st2 : List Char) (id : String)
    (h1 : matchMethodStatusIOS (trimChars l1.data) = some (a1, m1, st1))
    (hst1 : "failed".data.isPrefixOf st1 = true)
    (h2 : matchMethodStatusIOS (trimChars l2.data) = some (a2, m2, st2))
    (hst2 : "passed".data.isPrefixOf st2 = true)
    (hf1 : findTestIdByMethodName ctx m1 = some id)
    (hf2 : findTestIdByMethodName ctx m2 = some id)
    (hinv : ctx.failedMethodTests ⊆ ctx.processedMethodTests) :
    id ∈ (consumeLines ctx [l1, l2]).1.processedMethodTests ∧
    id ∈ (consumeLines ctx [l1, l2]).1.failedMethodTests ∧
    (consumeLines ctx [l1, l2]).1.failedMethodTests ⊆
      (consumeLines ctx [l1, l2]).1.processedMethodTests ∧
    (consumeLines ctx [l1, l2]).2 =
      [.failed id (getMethodError ctx id), .passed id] ∧
    getOverallStatus (consumeLines ctx [l1, l2]).1 = "failed" := by
  have e1 : parseOutputLine ctx l1 =
      ({ ctx with
          processedMethodTests := insert id ctx.processedMethodTests
          failedMethodTests := insert id ctx.failedMethodTests },
       [.failed id (getMethodError ctx id)]) := by
    rw [parseOutputLine_ios_eq ctx l1 a1 m1 st1 h1,
      handleMethodStatus_failed_eq ctx m1 st1 id hf1 hst1]
  have hf2' : findTestIdByMethodName (parseOutputLine ctx l1).1 m2 = some id := by
    rw [findTestIdByMethodName_congr ctx (parseOutputLine ctx l1).1
      (parseOutputLine_methodTests ctx l1) m2]
    exact hf2
  have e2 : parseOutputLine (parseOutputLine ctx l1).1 l2 =
      ({ (parseOutputLine ctx l1).1 with
          processedMethodTests :=
            insert id (parseOutputLine ctx l1).1.processedMethodTests },
       [.passed id]) := by
    rw [parseOutputLine_ios_eq _ l2 a2 m2 st2 h2,
      handleMethodStatus_passed_eq _ m2 st2 id hf2' hst2]
  rw [consumeLines_pair, e2]
  constructor
  · rw [e1]
    exact Finset.mem_insert_self id _
  constructor
  · rw [e1]
    exact Finset.mem_insert_self id _
  constructor
  · rw [e1]
    intro x hx
    rcases Finset.mem_insert.mp hx with h | h
    · exact Finset.mem_insert.mpr (Or.inl h)
    · exact Finset.mem_insert_of_mem (Finset.mem_insert_of_mem (hinv h))
  constructor
  · rw [e1]
    rfl
  · unfold getOverallStatus
    rw [if_pos]
    rw [e1]
    exact Finset.card_pos.mpr ⟨id, Finset.mem_insert_self id _⟩

/-- C4 witness: the amended theorem at the concrete failed-then-passed run. -/
theorem rerun_pass_witness :
    "F.testBar" ∈ (consumeLines (mkRunContext ["F.testBar"])
        ["Test case 'F.testBar()' failed",
         "Test case 'F.testBar()' passed"]).1.processedMethodTests ∧
    "F.testBar" ∈ (consumeLines (mkRunContext ["F.testBar"])
        ["Test case 'F.testBar()' failed",
         "Test case 'F.testBar()' passed"]).1.failedMethodTests ∧
    (consumeLines (mkRunContext ["F.testBar"])
        ["Test case 'F.testBar()' failed",
         "Test case 'F.testBar()' passed"]).1.failedMethodTests ⊆
      (consumeLines (mkRunContext ["F.testBar"])
        ["Test case 'F.testBar()' failed",
         "Test case 'F.testBar()' passed"]).1.processedMethodTests ∧
    (consumeLines (mkRunContext ["F.testBar"])
        ["Test case 'F.testBar()' failed",
         "Test case 'F.testBar()' passed"]).2 =
      [.failed "F.testBar" (getMethodError (mkRunContext ["F.testBar"]) "F.testBar"),
       .passed "F.testBar"] ∧
    getOverallStatus (consumeLines (mkRunContext ["F.testBar"])
        ["Test case 'F.testBar()' failed",
         "Test case 'F.testBar()' passed"]).1 = "failed" :=
  rerun_pass_keeps_failed_set (mkRunContext ["F.testBar"])
    "Test case 'F.testBar()' failed" "Test case 'F.testBar()' passed"
    "F".data "testBar".data "failed".data
    "F".data "testBar".data "passed".data
    "F.testBar"
    (by decide) (by decide) (by decide) (by decide) (by decide) (by decide)
    (by decide)

/-- C5 counterexample: when the `xcodebuild` invocation throws before any
output, the unprocessed method is marked failed by the `catch` block but the
unconditional `finally` sweep then marks it skipped, so its final mark is
`skipped`, not `failed` as the claim requires. -/
theorem transport_error_counterexample :
    finalMark "Meal:SmokeTests:C.testFoo"
        (runMethodTest "Meal:SmokeTests:C.testFoo" []
          (some "xcodebuild exited with code 65")) =
      some (.skipped "Meal:SmokeTests:C.testFoo") ∧
    RunEvent.failed "Meal:SmokeTests:C.testFoo"
        { message := "xcodebuild exited with code 65", location := none } ∈
      runMethodTest "Meal:SmokeTests:C.testFoo" []
        (some "xcodebuild exited with code 65") := by
  constructor
  · rfl
  · decide

/-- C5 amended: when the external tool invocation fails, each unprocessed
method node is marked failed with the generic error message, but the
unconditional end-of-run sweep afterwards marks it skipped, so the final mark
the test run receives for it is `skipped`. -/
theorem transport_error_marks_failed_then_skipped
    (id target errMsg : String) (lines : List String)
    (htgt : getTestTarget id = some target)
    (hunproc :
      id ∉ (consumeLines (mkRunContext [id]) lines).1.processedMethodTests) :
    RunEvent.failed id { message := errMsg, location := none } ∈
        runMethodTest id lines (some errMsg) ∧
    finalMark id (runMethodTest id lines (some errMsg)) =
      some (.skipped id) := by
  unfold runMethodTest
  rw [htgt]
  dsimp only
  rw [if_neg hunproc]
  constructor
  · simp
  · unfold finalMark
    rw [List.filter_append]
    have hsk : List.filter (isTerminalMarkFor id) [RunEvent.skipped id] =
        [RunEvent.skipped id] := by
      simp [isTerminalMarkFor]
    rw [hsk, List.getLast?_concat]

/-- C5 witness: the amended theorem at a concrete erroring run. -/
theorem transport_error_witness :
    RunEvent.failed "Meal:SmokeTests:C.testFoo"
        { message := "boom", location := none } ∈
        runMethodTest "Meal:SmokeTests:C.testFoo" [] (some "boom") ∧
    finalMark "Meal:SmokeTests:C.testFoo"
        (runMethodTest "Meal:SmokeTests:C.testFoo" [] (some "boom")) =
      some (.skipped "Meal:SmokeTests:C.testFoo") :=
  transport_error_marks_failed_then_skipped
    "Meal:SmokeTests:C.testFoo" "MealSmokeTests" "boom" []
    (by decide) (by decide)

/-! ### SPM target resolution (`resolveSPMTestingTarget`)

File-system paths are modelled as lists of segments (`path.dirname` drops the
last segment, `path.join` appends, `path.relative` under a prefix drops it,
`startsWith` on well-formed paths is segment-prefix).  The file system and the
`swift package dump-package` call are abstracted by two functions: whether a
directory holds a `Package.swift`, and the dump outcome for a directory. -/

/-- One entry of the dump's `targets` list, restricted to the fields the
source reads; `path` is relative to the package directory. -/
structure SwiftTarget where
  name : String
  type : String
  path : Option (List String)

/-- `target.path ? path.join(ancestorPath, target.path)
: path.join(ancestorPath, "Tests", target.name)`. -/
def targetDirPath (ancestorPath : List String) (t : SwiftTarget) :
    List String :=
  match t.path with
  | some p => ancestorPath ++ p
  | none => ancestorPath ++ ["Tests", t.name]

/-- The walk of `getAncestorsPaths` from `currentPath` down to `parentPath`;
the fuel bounds the walk (it never runs out when `parentPath` is a prefix of
the starting child path). -/
def ancestorChain : Nat → List String → List String → List (List String)
  | 0, _, _ => []
  | n + 1, parentPath, currentPath =>
    if currentPath = parentPath then [parentPath]
    else currentPath :: ancestorChain n parentPath currentPath.dropLast

/-- `getAncestorsPaths`: all ancestors of `childPath` up to and including
`parentPath`, closest first; empty when `childPath` is not under
`parentPath`. -/
def getAncestorsPaths (parentPath childPath : List String) :
    List (List String) :=
  if parentPath.isPrefixOf childPath then
    ancestorChain childPath.length parentPath childPath.dropLast
  else []

/-- The dump branch: names of `type == "test"` targets whose directory covers
the test file path. -/
def matchingTestTargetNames (ancestorPath testPath : List String)
    (targets : List SwiftTarget) : List String :=
  ((targets.filter (fun t => t.type == "test")).filter
    (fun t => (targetDirPath ancestorPath t).isPrefixOf testPath)).map
    (fun t => t.name)

/-- The catch-branch fallback
`path.relative(ancestorPath, testPath).match(/^Tests\/([^/]+)/)`. -/
def testsFolderFallback (ancestorPath testPath : List String) :
    Option String :=
  match testPath.drop ancestorPath.length with
  | "Tests" :: name :: _ => if name = "" then none else some name
  | _ => none

/-- The ancestor loop of `resolveSPMTestingTarget` for a single test item
(within one item the per-call path cache cannot hit, as each ancestor is
visited once).  An ancestor without `Package.swift` is skipped (`continue`);
at the first ancestor with one the loop always ends: a unique covering test
target resolves, a failed dump falls back to the `Tests/<name>` convention,
anything else is `break` (no resolution). -/
def resolveSPMTestingTargetOne (hasPackageSwift : List String → Bool)
    (dumpPackage : List String → Except Unit (List SwiftTarget))
    (testPath : List String) : List (List String) → Option String
  | [] => none
  | ancestorPath :: rest =>
    if hasPackageSwift ancestorPath then
      match dumpPackage ancestorPath with
      | .ok targets =>
        match matchingTestTargetNames ancestorPath testPath targets with
        | [onlyName] => some onlyName
        | _ => none
      | .error _ => testsFolderFallback ancestorPath testPath
    else resolveSPMTestingTargetOne hasPackageSwift dumpPackage testPath rest

/-- `resolveSPMTestingTarget` for a single test item: walk the ancestors of
the test file up to the workspace root. -/
def resolveSPMTestingTarget (workspacePath testPath : List String)
    (hasPackageSwift : List String → Bool)
    (dumpPackage : List String → Except Unit (List SwiftTarget)) :
    Option String :=
  resolveSPMTestingTargetOne hasPackageSwift dumpPackage testPath
    (getAncestorsPaths workspacePath testPath)

theorem resolveOne_none_of_no_package (hasPackageSwift : List String → Bool)
    (dumpPackage : List String → Except Unit (List SwiftTarget))
    (testPath : List String) :
    ∀ chain : List (List String),
      (∀ a ∈ chain, hasPackageSwift a = false) →
      resolveSPMTestingTargetOne hasPackageSwift dumpPackage testPath chain =
        none := by
  intro chain
  induction chain with
  | nil => intro _; rfl
  | cons a rest ih =>
    intro h
    unfold resolveSPMTestingTargetOne
    rw [h a (List.mem_cons_self a rest)]
    simp only [Bool.false_eq_true, if_false]
    exact ih fun b hb => h b (List.mem_cons_of_mem a hb)

theorem resolveOne_fallback_of_dump_error (hasPackageSwift : List String → Bool)
    (dumpPackage : List String → Except Unit (List SwiftTarget))
    (testPath a : List String) (name : String) (relRest : List String)
    (hp : hasPackageSwift a = true)
    (hd : dumpPackage a = .error ())
    (hrel : testPath.drop a.length = "Tests" :: name :: relRest)
    (hname : name ≠ "") :
    ∀ pre post : List (List String),
      (∀ b ∈ pre, hasPackageSwift b = false) →
      resolveSPMTestingTargetOne hasPackageSwift dumpPackage testPath
        (pre ++ a :: post) = some name := by
  intro pre
  induction pre with
  | nil =>
    intro post _
    unfold resolveSPMTestingTargetOne
    rw [List.nil_append]
    dsimp only
    simp only [hp, hd, if_true]
    unfold testsFolderFallback
    rw [hrel]
    simp [hname]
  | cons b pre ih =>
    intro post h
    unfold resolveSPMTestingTargetOne
    rw [List.cons_append]
    dsimp only
    rw [h b (List.mem_cons_self b pre)]
    simp only [Bool.false_eq_true, if_false]
    exact ih post fun x hx => h x (List.mem_cons_of_mem b hx)

/-- C6 counterexample: with no `Package.swift` at any ancestor, resolution for
`root/pkg/Tests/MyAppTests/Foo.swift` yields no target at all — not
`MyAppTests` as the claim requires. -/
theorem no_manifest_resolution_counterexample :
    resolveSPMTestingTarget ["root"]
      ["root", "pkg", "Tests", "MyAppTests", "Foo.swift"]
      (fun _ => false) (fun _ => .error ()) = none := by
  decide

/-- C6 amended: when no ancestor directory holds a `Package.swift`, target
resolution yields nothing (the node is later skipped); the `Tests/<Name>`
path-convention fallback produces `<Name>` only at the first ancestor that
does hold a `Package.swift` whose metadata dump fails. -/
theorem spm_resolution_manifest_and_fallback
    (workspacePath testPath : List String)
    (hasPackageSwift : List String → Bool)
    (dumpPackage : List String → Except Unit (List SwiftTarget)) :
    ((∀ a ∈ getAncestorsPaths workspacePath testPath,
        hasPackageSwift a = false) →
      resolveSPMTestingTarget workspacePath testPath hasPackageSwift
        dumpPackage = none) ∧
    (∀ (pre post : List (List String)) (a : List String) (name : String)
        (relRest : List String),
      getAncestorsPaths workspacePath testPath = pre ++ a :: post →
      (∀ b ∈ pre, hasPackageSwift b = false) →
      hasPackageSwift a = true →
      dumpPackage a = .error () →
      testPath.drop a.length = "Tests" :: name :: relRest →
      name ≠ "" →
      resolveSPMTestingTarget workspacePath testPath hasPackageSwift
        dumpPackage = some name) := by
  constructor
  · intro h
    exact resolveOne_none_of_no_package hasPackageSwift dumpPackage testPath
      (getAncestorsPaths workspacePath testPath) h
  · intro pre post a name relRest hchain hpre hp hd hrel hname
    unfold resolveSPMTestingTarget
    rw [hchain]
    exact resolveOne_fallback_of_dump_error hasPackageSwift dumpPackage
      testPath a name relRest hp hd hrel hname pre post hpre

/-- C6 witness: the amended theorem at a concrete workspace — no manifest
anywhere gives no target; a manifest at `root/pkg` with a failing dump gives
`MyAppTests` by the path convention. -/
theorem spm_resolution_witness :
    resolveSPMTestingTarget ["root"]
      ["root", "pkg", "Tests", "MyAppTests", "Foo.swift"]
      (fun _ => false) (fun _ => .error ()) = none ∧
    resolveSPMTestingTarget ["root"]
      ["root", "pkg", "Tests", "MyAppTests", "Foo.swift"]
      (fun p => p == ["root", "pkg"]) (fun _ => .error ()) = some "MyAppTests" :=
  ⟨(spm_resolution_manifest_and_fallback ["root"]
      ["root", "pkg", "Tests", "MyAppTests", "Foo.swift"]
      (fun _ => false) (fun _ => .error ())).1 (by decide),
   (spm_resolution_manifest_and_fallback ["root"]
      ["root", "pkg", "Tests", "MyAppTests", "Foo.swift"]
      (fun p => p == ["root", "pkg"]) (fun _ => .error ())).2
     [["root", "pkg", "Tests", "MyAppTests"], ["root", "pkg", "Tests"]]
     [["root"]] ["root", "pkg"] "MyAppTests" ["Foo.swift"]
     (by decide) (by decide) (by decide) rfl (by decide) (by decide)⟩

/-- C7: a selection containing both a class id and one of that class's method
ids keeps the class id and drops the method id on normalization.  The shape
hypotheses state what holds of ids built by discovery: a class id has no `.`,
a method id is the class id, a dot, and a non-empty method name. -/
theorem normalize_drops_method_of_selected_class
    (includeItems rootItems : List String) (classId mName : String)
    (hc : classId ∈ includeItems)
    (_hm : (classId ++ "." ++ mName) ∈ includeItems)
    (hsplitm : splitOnStr '.' (classId ++ "." ++ mName) = [classId, mName])
    (hmne : mName ≠ "")
    (hsplitc : splitOnStr '.' classId = [classId]) :
    classId ∈ prepareQueueForRun (some includeItems) rootItems ∧
    (classId ++ "." ++ mName) ∉ prepareQueueForRun (some includeItems) rootItems := by
  unfold prepareQueueForRun
  dsimp only
  constructor
  · rw [List.mem_filter]
    refine ⟨hc, ?_⟩
    rw [hsplitc]
  · intro hmem
    rw [List.mem_filter] at hmem
    have h2 := hmem.2
    rw [hsplitm] at h2
    dsimp only at h2
    rw [if_neg hmne] at h2
    have hany : (includeItems.any fun t => t == classId) = true :=
      List.any_eq_true.mpr ⟨classId, hc, by simp⟩
    rw [hany] at h2
    exact absurd h2 (by decide)

/-- C7 witness: normalizing a concrete selection holding a class and one of
its methods. -/
theorem normalize_witness :
    "D:UITests:C" ∈ prepareQueueForRun
      (some ["D:UITests:C", "D:UITests:C" ++ "." ++ "testFoo"]) [] ∧
    ("D:UITests:C" ++ "." ++ "testFoo") ∉ prepareQueueForRun
      (some ["D:UITests:C", "D:UITests:C" ++ "." ++ "testFoo"]) [] :=
  normalize_drops_method_of_selected_class
    ["D:UITests:C", "D:UITests:C" ++ "." ++ "testFoo"] []
    "D:UITests:C" "testFoo"
    (by decide) (by decide) (by decide) (by decide) (by decide)

/-- C8: a failed status line looks up the inline error stored earlier in the
run for the same method id: if present, the reported failure carries the
file path, the message, and the 0-based line `lineNumber - 1`; if absent, the
generic failure message with no location. -/
theorem failed_status_carries_inline_error
    (ctx : XcodebuildTestRunContext) (l1 l2 : String)
    (fp num m msg a2 m2 st2 : List Char) (id : String)
    (h1i : matchMethodStatusIOS (trimChars l1.data) = none)
    (h1m : matchMethodStatusMacOS (trimChars l1.data) = none)
    (h1e : matchInlineError (trimChars l1.data) = some (fp, num, m, msg))
    (h2i : matchMethodStatusIOS (trimChars l2.data) = none)
    (h2m : matchMethodStatusMacOS (trimChars l2.data) = some (a2, m2, st2))
    (hst2 : "failed".data.isPrefixOf st2 = true)
    (hf1 : findTestIdByMethodName ctx m = some id)
    (hf2 : findTestIdByMethodName ctx m2 = some id)
    (hempty : ctx.inlineErrorMap id = none) :
    (consumeLines ctx [l1, l2]).2 =
      [.failed id
        { message := String.mk msg
          location := some (String.mk fp, (parseDigits num : Int) - 1) }] ∧
    (consumeLines ctx [l2]).2 =
      [.failed id
        { message := "Test failed (error message is not extracted)."
          location := none }] := by
  have hgen : getMethodError ctx id =
      { message := "Test failed (error message is not extracted)."
        location := none } := by
    unfold getMethodError
    rw [hempty]
  have e1 : parseOutputLine ctx l1 =
      ({ ctx with
          inlineErrorMap := fun i =>
            if i = id then
              some { fileName := String.mk fp
                     lineNumber := (parseDigits num : Int)
                     message := String.mk msg }
            else ctx.inlineErrorMap i },
       []) :=
    parseOutputLine_inline_eq ctx l1 fp num m msg id h1i h1m h1e hf1
  constructor
  · have hf2' : findTestIdByMethodName (parseOutputLine ctx l1).1 m2 = some id := by
      rw [findTestIdByMethodName_congr ctx (parseOutputLine ctx l1).1
        (parseOutputLine_methodTests ctx l1) m2]
      exact hf2
    have hstored : getMethodError (parseOutputLine ctx l1).1 id =
        { message := String.mk msg
          location := some (String.mk fp, (parseDigits num : Int) - 1) } := by
      unfold getMethodError
      rw [e1]
      dsimp only
      rw [if_pos rfl]
    have e2 : parseOutputLine (parseOutputLine ctx l1).1 l2 =
        ({ (parseOutputLine ctx l1).1 with
            processedMethodTests :=
              insert id (parseOutputLine ctx l1).1.processedMethodTests
            failedMethodTests :=
              insert id (parseOutputLine ctx l1).1.failedMethodTests },
         [.failed id (getMethodError (parseOutputLine ctx l1).1 id)]) := by
      rw [parseOutputLine_macos_eq _ l2 a2 m2 st2 h2i h2m,
        handleMethodStatus_failed_eq _ m2 st2 id hf2' hst2]
    rw [consumeLines_pair, e2, hstored, e1]
    rfl
  · have e2' : parseOutputLine ctx l2 =
        ({ ctx with
            processedMethodTests := insert id ctx.processedMethodTests
            failedMethodTests := insert id ctx.failedMethodTests },
         [.failed id (getMethodError ctx id)]) := by
      rw [parseOutputLine_macos_eq ctx l2 a2 m2 st2 h2i h2m,
        handleMethodStatus_failed_eq ctx m2 st2 id hf2 hst2]
    show (parseOutputLine ctx l2).2 ++ (consumeLines (parseOutputLine ctx l2).1 []).2 = _
    rw [e2', hgen]
    rfl

/-- C8 witness: the spec's desktop-dialect example — the inline error at
`/path/File.swift:10` is carried by the later failed status with 0-based line
9, and without it the generic message is used. -/
theorem inline_error_witness :
    (consumeLines (mkRunContext ["FooTests.testBar"])
        ["/path/File.swift:10: error: -[MyTargetTests.FooTests testBar] : XCTAssertEqual failed",
         "Test Case '-[MyTargetTests.FooTests testBar]' failed (0.02 seconds)"]).2 =
      [.failed "FooTests.testBar"
        { message := String.mk "XCTAssertEqual failed".data
          location := some (String.mk "/path/File.swift".data,
            (parseDigits "10".data : Int) - 1) }] ∧
    (consumeLines (mkRunContext ["FooTests.testBar"])
        ["Test Case '-[MyTargetTests.FooTests testBar]' failed (0.02 seconds)"]).2 =
      [.failed "FooTests.testBar"
        { message := "Test failed (error message is not extracted)."
          location := none }] :=
  failed_status_carries_inline_error (mkRunContext ["FooTests.testBar"])
    "/path/File.swift:10: error: -[MyTargetTests.FooTests testBar] : XCTAssertEqual failed"
    "Test Case '-[MyTargetTests.FooTests testBar]' failed (0.02 seconds)"
    "/path/File.swift".data "10".data "testBar".data "XCTAssertEqual failed".data
    "MyTargetTests.FooTests".data "testBar".data "failed (0.02 seconds)".data
    "FooTests.testBar"
    (by decide) (by decide) (by decide) (by decide) (by decide) (by decide)
    (by decide) (by decide) rfl

/-! ### Test-class recognition (`discoverUITests` / `hasBaseTestClass`) -/

/-- `s.trim()` on a Lean `String`. -/
def trimString (s : String) : String := String.mk (trimChars s.data)

/-- `classMatch[2].split(',').map(s => s.trim())`: the comma-separated,
whitespace-trimmed inheritance list of a matched class declaration. -/
def inheritanceListOf (inh : String) : List String :=
  (splitOnStr ',' inh).map trimString

/-- `inheritanceList.some(base => base === 'BaseTest')`. -/
def classInheritsBaseTest (inh : String) : Bool :=
  (inheritanceListOf inh).any fun base => base == "BaseTest"

/-- The per-class guard of `discoverUITests`: a class whose inheritance list
lacks the marker is skipped (`continue`) and produces no test item; otherwise
its class test item id `domain:testType:className` is created. -/
def classTestItemId (domain testType className inh : String) : Option String :=
  if classInheritsBaseTest inh then
    some (domain ++ ":" ++ testType ++ ":" ++ className)
  else none

/-- C9: a class is recognized as a test class iff its comma-separated,
trimmed inheritance list contains `BaseTest` as an exact element; an element
that merely contains the marker as a substring (`MyBaseTest`) does not
qualify, and an unrecognized class produces no test item. -/
theorem test_class_recognition_exact_token :
    (∀ inh : String, classInheritsBaseTest inh = true ↔
      "BaseTest" ∈ inheritanceListOf inh) ∧
    (∀ domain testType className inh : String,
      classInheritsBaseTest inh = false →
      classTestItemId domain testType className inh = none) ∧
    classInheritsBaseTest "XCTestCase, MyBaseTest" = false ∧
    classInheritsBaseTest "UITestBase, BaseTest " = true := by
  refine ⟨?_, ?_, by decide, by decide⟩
  · intro inh
    rw [classInheritsBaseTest, List.any_eq_true]
    constructor
    · rintro ⟨x, hx, hbeq⟩
      rw [beq_iff_eq] at hbeq
      exact hbeq ▸ hx
    · intro h
      exact ⟨"BaseTest", h, by simp⟩
  · intro domain testType className inh h
    unfold classTestItemId
    rw [h]
    simp

/-- C9 witness: the recognition parts applied to concrete inheritance
lists. -/
theorem test_class_recognition_witness :
    (classInheritsBaseTest "UITestBase, BaseTest " = true ↔
      "BaseTest" ∈ inheritanceListOf "UITestBase, BaseTest ") ∧
    classTestItemId "Meal" "SmokeTests" "Foo" "MyBaseTest" = none :=
  ⟨test_class_recognition_exact_token.1 "UITestBase, BaseTest ",
   test_class_recognition_exact_token.2.1 "Meal" "SmokeTests" "Foo"
     "MyBaseTest" (by decide)⟩

/-- C10 counterexample: `":SmokeTests"` has two `:` segments and its second
segment ends with `Tests`, yet `getTestTarget` is undefined on it, because
the code also requires the first segment to be truthy (non-empty). -/
theorem getTestTarget_empty_domain_counterexample :
    splitOnStr ':' ":SmokeTests" = ["", "SmokeTests"] ∧
    "Tests".data.isSuffixOf "SmokeTests".data = true ∧
    getTestTarget ":SmokeTests" = none := by
  decide

/-- C10 amended: `getTestTarget` is defined exactly when the id has at least
two `:` segments, the first segment is non-empty, and the second ends with
`"Tests"`, in which case it is the concatenation of the first two segments;
on ids without a target `runMethodTest` only marks the node skipped. -/
theorem getTestTarget_characterization :
    (∀ testId target : String,
      getTestTarget testId = some target ↔
        ∃ domain testType rest,
          splitOnStr ':' testId = domain :: testType :: rest ∧
          domain ≠ "" ∧ "Tests".data.isSuffixOf testType.data = true ∧
          target = domain ++ testType) ∧
    (∀ (testId : String) (lines : List String) (execError : Option String),
      getTestTarget testId = none →
      runMethodTest testId lines execError = [.skipped testId]) := by
  constructor
  · intro testId target
    unfold getTestTarget
    cases hs : splitOnStr ':' testId with
    | nil => simp [hs]
    | cons d rest0 =>
      cases rest0 with
      | nil => simp [hs]
      | cons t rest =>
        dsimp only
        split
        · rename_i hcond
          constructor
          · intro heq
            exact ⟨d, t, rest, rfl, hcond.1, hcond.2.2,
              (Option.some.inj heq).symm⟩
          · rintro ⟨d', t', r', heq, hd', hsuf', rfl⟩
            obtain ⟨rfl, rfl, rfl⟩ : d = d' ∧ t = t' ∧ rest = r' := by
              injection heq with h1 h2
              injection h2 with h2 h3
              exact ⟨h1, h2, h3⟩
            rfl
        · rename_i hcond
          constructor
          · intro heq
            exact absurd heq (by simp)
          · rintro ⟨d', t', r', heq, hd', hsuf', rfl⟩
            obtain ⟨rfl, rfl, rfl⟩ : d = d' ∧ t = t' ∧ rest = r' := by
              injection heq with h1 h2
              injection h2 with h2 h3
              exact ⟨h1, h2, h3⟩
            have ht : t ≠ "" := by
              intro he
              rw [he] at hsuf'
              exact absurd hsuf' (by decide)
            exact absurd ⟨hd', ht, hsuf'⟩ hcond
  · intro testId lines execError h
    unfold runMethodTest
    rw [h]

/-- C10 witness: the characterization applied to a method id and to an id
with no valid target. -/
theorem getTestTarget_witness :
    getTestTarget "Meal:SmokeTests:TestClass.testMethod" = some "MealSmokeTests" ∧
    runMethodTest "Meal:Other" [] none = [.skipped "Meal:Other"] :=
  ⟨(getTestTarget_characterization.1 "Meal:SmokeTests:TestClass.testMethod"
      "MealSmokeTests").mpr
    ⟨"Meal", "SmokeTests", ["TestClass.testMethod"], by decide, by decide,
      by decide, by decide⟩,
   getTestTarget_characterization.2 "Meal:Other" [] none (by decide)⟩

end Sweetpad
